import Mathlib

/-!
Shallow embedding of the kotoba mastery-tracking engine.

Sources embedded:
- `apps/api/src/db.ts`: `ReviewResult`, `WordStatsRow`, `computeScoreDelta`,
  `applyReviewToStats`, and the `word_stats` table schema (zero defaults,
  `word_id` primary key).
- the API routes file (registerApiRoutes, user-scoped variant):
  `POST /api/reviews`, `POST /api/reviews/bulk`, `GET /api/words/difficult`.

Timestamps (ISO-8601 strings in the source) are modelled as an abstract
`Timestamp := Nat`; the engine never inspects their contents.  SQLite
INTEGER columns and JS numbers are modelled as `Int`.  The `word_stats`
table is a list of rows; `INSERT OR IGNORE` appends a default row only
when no row with that primary key exists, `UPDATE ... WHERE word_id = ?`
rewrites every row with that key, and a point `SELECT` is `List.find?`.
-/

namespace Kotoba

/-- Abstract stand-in for ISO-8601 timestamp strings. -/
abbrev Timestamp := Nat

/-- `type ReviewResult = "success" | "partial" | "fail"` (db.ts).
The `"partial"` variant is spelled `partial_` here. -/
inductive ReviewResult where
  | success
  | partial_
  | fail
deriving DecidableEq, Repr

/-- `WordStatsRow` (db.ts): one row of the `word_stats` table. -/
structure WordStatsRow where
  word_id : Nat
  success_count : Int
  partial_count : Int
  fail_count : Int
  score : Int
  last_reviewed_at : Option Timestamp
deriving DecidableEq, Repr

/-- `WordRow` (db.ts): one row of the `words` table. -/
structure WordRow where
  id : Nat
  user_id : Option Nat
  french : String
  romaji : Option String
  kana : Option String
  kanji : Option String
  note : Option String
  created_at : Timestamp
deriving DecidableEq, Repr

/-- The database state the review/difficulty routes read and write. -/
structure Db where
  words : List WordRow
  word_stats : List WordStatsRow
deriving DecidableEq, Repr

/-- `computeScoreDelta` (db.ts lines 193-197). -/
def computeScoreDelta : ReviewResult → Int
  | ReviewResult.success => 2
  | ReviewResult.partial_ => 1
  | ReviewResult.fail => -2

/-- `applyReviewToStats` (db.ts lines 199-214).  The source reads
`new Date().toISOString()`; that effect is the explicit `now` argument. -/
def applyReviewToStats (existingStats : WordStatsRow) (reviewResult : ReviewResult)
    (now : Timestamp) : WordStatsRow :=
  let scoreDelta := computeScoreDelta reviewResult
  { existingStats with
    success_count :=
      existingStats.success_count + (if reviewResult = ReviewResult.success then 1 else 0)
    partial_count :=
      existingStats.partial_count + (if reviewResult = ReviewResult.partial_ then 1 else 0)
    fail_count :=
      existingStats.fail_count + (if reviewResult = ReviewResult.fail then 1 else 0)
    score := existingStats.score + scoreDelta
    last_reviewed_at := some now }

/-- The `word_stats` schema defaults (db.ts lines 79-87): a freshly inserted
row carries zero counters, zero score and a NULL `last_reviewed_at`. -/
def defaultStats (wordId : Nat) : WordStatsRow :=
  { word_id := wordId
    success_count := 0
    partial_count := 0
    fail_count := 0
    score := 0
    last_reviewed_at := none }

/-- `SELECT ... FROM word_stats WHERE word_id = ?` ( point lookup on the
primary key). -/
def selectStats (stats : List WordStatsRow) (wordId : Nat) : Option WordStatsRow :=
  stats.find? (fun s => s.word_id == wordId)

/-- `INSERT OR IGNORE INTO word_stats (word_id) VALUES (?)`: inserts the
schema-default row unless a row with that primary key already exists. -/
def insertOrIgnoreStats (stats : List WordStatsRow) (wordId : Nat) : List WordStatsRow :=
  if stats.any (fun s => s.word_id == wordId) then stats
  else stats ++ [defaultStats wordId]

/-- `UPDATE word_stats SET ... WHERE word_id = ?`: rewrites every row whose
key matches the updated row's key. -/
def updateStats : List WordStatsRow → WordStatsRow → List WordStatsRow
  | [], _ => []
  | s :: rest, updated =>
    (if s.word_id == updated.word_id then updated else s) :: updateStats rest updated

/-- `SELECT id FROM words WHERE id = ? AND user_id = ?` (and the identical
`SELECT 1` ownership probe of the bulk route). -/
def wordOwnedBy (db : Db) (wordId userId : Nat) : Bool :=
  db.words.any (fun w => w.id == wordId && w.user_id == some userId)

/-- Outcomes of `POST /api/reviews`: 404 "Word not found", 404 "Stats not
found", or 200 with the updated stats row. -/
inductive SingleReviewResponse where
  | wordNotFound
  | statsNotFound
  | ok (stats : WordStatsRow)
deriving DecidableEq, Repr

/-- `POST /api/reviews` (routes file, user-scoped variant): ownership check,
create-if-absent, load, `applyReviewToStats`, persist, echo. -/
def postReview (db : Db) (userId wordId : Nat) (result : ReviewResult)
    (now : Timestamp) : SingleReviewResponse × Db :=
  if wordOwnedBy db wordId userId then
    let stats1 := insertOrIgnoreStats db.word_stats wordId
    match selectStats stats1 wordId with
    | none => (SingleReviewResponse.statsNotFound, { db with word_stats := stats1 })
    | some existingStats =>
      let updatedStats := applyReviewToStats existingStats result now
      (SingleReviewResponse.ok updatedStats,
        { db with word_stats := updateStats stats1 updatedStats })
  else (SingleReviewResponse.wordNotFound, db)

/-- One iteration of the `POST /api/reviews/bulk` transaction loop: skip
unowned words, create-if-absent, load, substitute `nowIso` for an absent
`last_reviewed_at` (`existingStats.last_reviewed_at ?? nowIso`), apply,
persist, count. -/
def bulkReviewStep (userId : Nat) (now : Timestamp) (acc : Nat × Db)
    (review : Nat × ReviewResult) : Nat × Db :=
  let appliedCount := acc.1
  let db := acc.2
  if wordOwnedBy db review.1 userId then
    let stats1 := insertOrIgnoreStats db.word_stats review.1
    match selectStats stats1 review.1 with
    | none => (appliedCount, { db with word_stats := stats1 })
    | some existingStats =>
      let updatedStats := applyReviewToStats
        { existingStats with
          last_reviewed_at := some (existingStats.last_reviewed_at.getD now) }
        review.2 now
      (appliedCount + 1, { db with word_stats := updateStats stats1 updatedStats })
  else acc

/-- `POST /api/reviews/bulk` (routes file): folds the transaction loop over
the submitted pairs, starting from `appliedCount = 0`, and returns the final
`appliedCount` with the final database state. -/
def postBulkReviews (db : Db) (userId : Nat) (reviews : List (Nat × ReviewResult))
    (now : Timestamp) : Nat × Db :=
  reviews.foldl (bulkReviewStep userId now) (0, db)

/-- The `COALESCE(s...., 0)` view of `words LEFT JOIN word_stats`: a word
with no stats row is read as all-zero counters, zero score, NULL timestamp. -/
def effectiveStats (db : Db) (wordId : Nat) : WordStatsRow :=
  (selectStats db.word_stats wordId).getD (defaultStats wordId)

/-- Total attempts, `success_count + partial_count + fail_count`. -/
def attemptsOf (s : WordStatsRow) : Int :=
  s.success_count + s.partial_count + s.fail_count

/-- The WHERE predicate of `GET /api/words/difficult` on one joined row:
`score <= scoreThreshold OR (attempts >= minAttempts AND
CAST(fail AS REAL) / NULLIF(attempts, 0) > failRateThreshold)`.
`NULLIF` makes the comparison NULL (hence false) when `attempts = 0`. -/
def isDifficult (s : WordStatsRow) (scoreThreshold minAttempts : Int)
    (failRateThreshold : ℚ) : Bool :=
  decide (s.score ≤ scoreThreshold) ||
    (decide (minAttempts ≤ attemptsOf s) && !(attemptsOf s == 0) &&
      decide (failRateThreshold < (s.fail_count : ℚ) / (attemptsOf s : ℚ)))

/-- `ORDER BY COALESCE(s.score, 0) ASC, w.id DESC` as a total order on the
returned (word, effective stats) rows. -/
def difficultLE (a b : WordRow × WordStatsRow) : Prop :=
  a.2.score < b.2.score ∨ (a.2.score = b.2.score ∧ b.1.id ≤ a.1.id)

instance : DecidableRel difficultLE := fun a b => by
  unfold difficultLE; infer_instance

instance : IsTotal (WordRow × WordStatsRow) difficultLE where
  total a b := by
    unfold difficultLE
    rcases lt_trichotomy a.2.score b.2.score with h | h | h
    · exact Or.inl (Or.inl h)
    · rcases Nat.le_total b.1.id a.1.id with h' | h'
      · exact Or.inl (Or.inr ⟨h, h'⟩)
      · exact Or.inr (Or.inr ⟨h.symm, h'⟩)
    · exact Or.inr (Or.inl h)

instance : IsTrans (WordRow × WordStatsRow) difficultLE where
  trans a b c hab hbc := by
    unfold difficultLE at *
    rcases hab with hab | ⟨hab, hab'⟩
    · rcases hbc with hbc | ⟨hbc, _⟩
      · exact Or.inl (hab.trans hbc)
      · exact Or.inl (hbc ▸ hab)
    · rcases hbc with hbc | ⟨hbc, hbc'⟩
      · exact Or.inl (hab ▸ hbc)
      · exact Or.inr ⟨hab.trans hbc, hbc'.trans hab'⟩

/-- `GET /api/words/difficult` (routes file, user-scoped variant): filter the
acting user's words by `isDifficult` over the left-joined effective stats,
then sort by score ascending, word id descending. -/
def difficultWords (db : Db) (userId : Nat) (scoreThreshold minAttempts : Int)
    (failRateThreshold : ℚ) : List (WordRow × WordStatsRow) :=
  ((db.words.filter (fun w =>
      w.user_id == some userId &&
        isDifficult (effectiveStats db w.id) scoreThreshold minAttempts
          failRateThreshold)).map
    (fun w => (w, effectiveStats db w.id))).insertionSort difficultLE

/-- The record an owned bulk pair writes: `applyReviewToStats` of the
loaded (or freshly created) record with the `?? nowIso` substitution on
`last_reviewed_at`. -/
def bulkUpdated (db : Db) (rv : Nat × ReviewResult) (now : Timestamp) : WordStatsRow :=
  applyReviewToStats
    { effectiveStats db rv.1 with
      last_reviewed_at := some ((effectiveStats db rv.1).last_reviewed_at.getD now) }
    rv.2 now

/-- Stats records reachable from the schema-default record by applying
review outcomes — the only way the engine ever mutates a record. -/
inductive ReachableStats : WordStatsRow → Prop where
  | init (wid : Nat) : ReachableStats (defaultStats wid)
  | step (r : WordStatsRow) (o : ReviewResult) (t : Timestamp) :
      ReachableStats r → ReachableStats (applyReviewToStats r o t)

/-- A one-word database used to instantiate route-level theorems. -/
def sampleWord : WordRow :=
  { id := 1
    user_id := some 7
    french := "chat"
    romaji := some "neko"
    kana := none
    kanji := none
    note := none
    created_at := 0 }

/-- Database holding `sampleWord` (owned by user 7) and no stats rows. -/
def sampleDb : Db :=
  { words := [sampleWord], word_stats := [] }

/-- The spec's §8 concrete scenario: word 1 with one success, four fails,
score −3. -/
def difficultSampleStats : WordStatsRow :=
  { word_id := 1
    success_count := 1
    partial_count := 0
    fail_count := 4
    score := -3
    last_reviewed_at := some 3 }

/-- `sampleWord` together with `difficultSampleStats`. -/
def difficultSampleDb : Db :=
  { words := [sampleWord], word_stats := [difficultSampleStats] }

/-- A second word, owned by user 9 — foreign to user 7. -/
def foreignWord : WordRow :=
  { id := 2
    user_id := some 9
    french := "chien"
    romaji := some "inu"
    kana := none
    kanji := none
    note := none
    created_at := 1 }

/-- Two-user database for the bulk-route theorems: word 1 is user 7's,
word 2 is user 9's, no stats rows yet. -/
def bulkSampleDb : Db :=
  { words := [sampleWord, foreignWord], word_stats := [] }

/-- After `INSERT OR IGNORE` for `wid`, the point lookup for `wid` returns
the pre-existing row if there was one, and the schema-default row otherwise. -/
theorem selectStats_insertOrIgnoreStats_self (stats : List WordStatsRow) (wid : Nat) :
    selectStats (insertOrIgnoreStats stats wid) wid =
      some ((selectStats stats wid).getD (defaultStats wid)) := by
  unfold insertOrIgnoreStats
  by_cases h : stats.any (fun s => s.word_id == wid)
  · rw [if_pos h]
    have hsome : (selectStats stats wid).isSome := by
      rw [selectStats, List.find?_isSome]
      simpa [List.any_eq_true] using h
    obtain ⟨s, hs⟩ := Option.isSome_iff_exists.mp hsome
    rw [hs]
    rfl
  · rw [if_neg h]
    have hnone : selectStats stats wid = none := by
      rw [selectStats, List.find?_eq_none]
      intro x hx hpx
      exact h (List.any_eq_true.mpr ⟨x, hx, hpx⟩)
    simp only [selectStats] at hnone ⊢
    rw [List.find?_append, hnone]
    simp [defaultStats]

/-- `INSERT OR IGNORE` for a different key does not change the point lookup. -/
theorem selectStats_insertOrIgnoreStats_ne (stats : List WordStatsRow) (w wid : Nat)
    (h : w ≠ wid) :
    selectStats (insertOrIgnoreStats stats w) wid = selectStats stats wid := by
  unfold insertOrIgnoreStats
  by_cases hany : stats.any (fun s => s.word_id == w)
  · rw [if_pos hany]
  · rw [if_neg hany]
    simp only [selectStats]
    rw [List.find?_append]
    cases hfind : stats.find? (fun s => s.word_id == wid) with
    | some s => rfl
    | none =>
      have hw : (w == wid) = false := by simpa using h
      simp [defaultStats, hw]

/-- After an `UPDATE ... WHERE word_id = u.word_id` on a table containing a
row with that key, the point lookup for that key returns `u`. -/
theorem selectStats_updateStats_self (stats : List WordStatsRow) (u : WordStatsRow)
    (h : (selectStats stats u.word_id).isSome) :
    selectStats (updateStats stats u) u.word_id = some u := by
  induction stats with
  | nil => simp [selectStats] at h
  | cons s rest ih =>
    by_cases hs : (s.word_id == u.word_id) = true
    · rw [updateStats, if_pos hs]
      simp [selectStats]
    · rw [updateStats, if_neg hs]
      have h' : (selectStats rest u.word_id).isSome := by
        simpa [selectStats, hs] using h
      simpa [selectStats, hs] using ih h'

/-- An `UPDATE` keyed on a different `word_id` does not change the point
lookup. -/
theorem selectStats_updateStats_ne (stats : List WordStatsRow) (u : WordStatsRow)
    (wid : Nat) (h : u.word_id ≠ wid) :
    selectStats (updateStats stats u) wid = selectStats stats wid := by
  induction stats with
  | nil => rfl
  | cons s rest ih =>
    by_cases hs : (s.word_id == u.word_id) = true
    · have hsw : ¬(s.word_id == wid) = true := by
        rw [beq_iff_eq] at hs ⊢
        omega
      have huw : ¬(u.word_id == wid) = true := by
        rw [beq_iff_eq]
        exact h
      rw [updateStats, if_pos hs]
      simpa [selectStats, huw, hsw] using ih
    · rw [updateStats, if_neg hs]
      by_cases hw : (s.word_id == wid) = true
      · simp [selectStats, hw]
      · simpa [selectStats, hw] using ih

/-- `applyReviewToStats` never changes the record's key. -/
theorem applyReviewToStats_word_id (r : WordStatsRow) (o : ReviewResult) (t : Timestamp) :
    (applyReviewToStats r o t).word_id = r.word_id := rfl

/-- The row read back for `wid` (pre-existing or schema default) carries the
key `wid`. -/
theorem selectStats_getD_word_id (stats : List WordStatsRow) (wid : Nat) :
    ((selectStats stats wid).getD (defaultStats wid)).word_id = wid := by
  cases hfind : selectStats stats wid with
  | none => simp [defaultStats]
  | some s =>
    simp only [selectStats] at hfind
    have hp := List.find?_some hfind
    simpa using hp

/-- Key-respecting form of `selectStats_updateStats_self`. -/
theorem selectStats_updateStats_self' (stats : List WordStatsRow) (u : WordStatsRow)
    (wid : Nat) (hwid : u.word_id = wid) (h : (selectStats stats wid).isSome) :
    selectStats (updateStats stats u) wid = some u := by
  subst hwid
  exact selectStats_updateStats_self stats u h

/-- C1: for every stats record `r` and outcome, `applyReviewToStats` returns
a record whose score is `r.score` plus exactly +2 for success, +1 for
partial, -2 for fail. -/
theorem applyReview_score_exact (r : WordStatsRow) (now : Timestamp) :
    (applyReviewToStats r ReviewResult.success now).score = r.score + 2 ∧
    (applyReviewToStats r ReviewResult.partial_ now).score = r.score + 1 ∧
    (applyReviewToStats r ReviewResult.fail now).score = r.score + (-2) :=
  ⟨rfl, rfl, rfl⟩

/-- C2: exactly the counter matching the outcome increases by 1, `word_id`
is unchanged, `last_reviewed_at` is set to the application time, and no
field other than the matched counter, `score` and `last_reviewed_at`
differs from `r` (stated as full record equalities). -/
theorem applyReview_frame (r : WordStatsRow) (now : Timestamp) :
    applyReviewToStats r ReviewResult.success now =
      { r with
        success_count := r.success_count + 1
        score := r.score + 2
        last_reviewed_at := some now } ∧
    applyReviewToStats r ReviewResult.partial_ now =
      { r with
        partial_count := r.partial_count + 1
        score := r.score + 1
        last_reviewed_at := some now } ∧
    applyReviewToStats r ReviewResult.fail now =
      { r with
        fail_count := r.fail_count + 1
        score := r.score - 2
        last_reviewed_at := some now } := by
  obtain ⟨wid, sc, pc, fc, s, lr⟩ := r
  refine ⟨?_, ?_, ?_⟩
  · simp [applyReviewToStats, computeScoreDelta]
  · simp [applyReviewToStats, computeScoreDelta]
  · simp [applyReviewToStats, computeScoreDelta]
    omega

/-- C3: the counters and score produced by `applyReviewToStats` depend only
on the starting record's counters/score and the outcome — not on its
`last_reviewed_at` and not on the application time — and in particular the
bulk route's substitution `last_reviewed_at ?? nowIso` on a never-reviewed
record changes neither the resulting counters nor the resulting score. -/
theorem applyReview_deterministic (r : WordStatsRow) (o : ReviewResult)
    (lr1 lr2 : Option Timestamp) (t1 t2 now : Timestamp) :
    ((applyReviewToStats { r with last_reviewed_at := lr1 } o t1).success_count =
        (applyReviewToStats { r with last_reviewed_at := lr2 } o t2).success_count ∧
      (applyReviewToStats { r with last_reviewed_at := lr1 } o t1).partial_count =
        (applyReviewToStats { r with last_reviewed_at := lr2 } o t2).partial_count ∧
      (applyReviewToStats { r with last_reviewed_at := lr1 } o t1).fail_count =
        (applyReviewToStats { r with last_reviewed_at := lr2 } o t2).fail_count ∧
      (applyReviewToStats { r with last_reviewed_at := lr1 } o t1).score =
        (applyReviewToStats { r with last_reviewed_at := lr2 } o t2).score) ∧
    ((applyReviewToStats
          { r with last_reviewed_at := some (r.last_reviewed_at.getD now) } o t1).success_count =
        (applyReviewToStats r o t1).success_count ∧
      (applyReviewToStats
          { r with last_reviewed_at := some (r.last_reviewed_at.getD now) } o t1).partial_count =
        (applyReviewToStats r o t1).partial_count ∧
      (applyReviewToStats
          { r with last_reviewed_at := some (r.last_reviewed_at.getD now) } o t1).fail_count =
        (applyReviewToStats r o t1).fail_count ∧
      (applyReviewToStats
          { r with last_reviewed_at := some (r.last_reviewed_at.getD now) } o t1).score =
        (applyReviewToStats r o t1).score) := by
  obtain ⟨wid, sc, pc, fc, s, lr⟩ := r
  exact ⟨⟨rfl, rfl, rfl, rfl⟩, ⟨rfl, rfl, rfl, rfl⟩⟩

/-- C4: a single review for a `wordId` not owned by the acting user (in
particular a nonexistent word) answers 404 "Word not found" and leaves the
database — including every stats record — untouched; for an owned word it
returns 200 with `applyReviewToStats` of the loaded (or freshly created)
record and persists exactly that record under `wordId`. -/
theorem postReview_spec (db : Db) (userId wordId : Nat) (result : ReviewResult)
    (now : Timestamp) :
    (wordOwnedBy db wordId userId = false →
      postReview db userId wordId result now = (SingleReviewResponse.wordNotFound, db)) ∧
    (wordOwnedBy db wordId userId = true →
      ∃ u, u = applyReviewToStats ((selectStats db.word_stats wordId).getD
            (defaultStats wordId)) result now ∧
        (postReview db userId wordId result now).1 = SingleReviewResponse.ok u ∧
        selectStats (postReview db userId wordId result now).2.word_stats wordId = some u) := by
  have hsel := selectStats_insertOrIgnoreStats_self db.word_stats wordId
  constructor
  · intro hno
    simp [postReview, hno]
  · intro hyes
    refine ⟨applyReviewToStats ((selectStats db.word_stats wordId).getD
      (defaultStats wordId)) result now, rfl, ?_, ?_⟩
    · simp [postReview, hyes, hsel]
    · have hwid : (applyReviewToStats ((selectStats db.word_stats wordId).getD
          (defaultStats wordId)) result now).word_id = wordId := by
        rw [applyReviewToStats_word_id, selectStats_getD_word_id]
      have hsome : (selectStats (insertOrIgnoreStats db.word_stats wordId) wordId).isSome := by
        rw [hsel]; rfl
      simp only [postReview, hyes, if_true, hsel]
      exact selectStats_updateStats_self' _ _ _ hwid hsome

/-- C4 witness: user 8 does not own word 1 so the request 404s with the
database unchanged; user 7 owns it and the review is applied and persisted. -/
theorem postReview_spec_witness :
    (postReview sampleDb 8 1 ReviewResult.success 5 =
      (SingleReviewResponse.wordNotFound, sampleDb)) ∧
    ∃ u, u = applyReviewToStats ((selectStats sampleDb.word_stats 1).getD
          (defaultStats 1)) ReviewResult.success 5 ∧
      (postReview sampleDb 7 1 ReviewResult.success 5).1 = SingleReviewResponse.ok u ∧
      selectStats (postReview sampleDb 7 1 ReviewResult.success 5).2.word_stats 1 = some u :=
  ⟨(postReview_spec sampleDb 8 1 ReviewResult.success 5).1 (by decide),
    (postReview_spec sampleDb 7 1 ReviewResult.success 5).2 (by decide)⟩

/-- C9: `INSERT OR IGNORE` stats creation is idempotent — a second ensure is
a no-op on any table that already has the row, doubly ensuring a
never-reviewed `wordId` leaves exactly the single schema-default row
(all-zero counters, zero score, `last_reviewed_at` absent) for it, and an
ensure on a table already holding the key changes nothing at all. -/
theorem insertOrIgnoreStats_idempotent (stats : List WordStatsRow) (wid : Nat) :
    insertOrIgnoreStats (insertOrIgnoreStats stats wid) wid =
      insertOrIgnoreStats stats wid ∧
    (stats.filter (fun s => s.word_id == wid) = [] →
      (insertOrIgnoreStats (insertOrIgnoreStats stats wid) wid).filter
          (fun s => s.word_id == wid) = [defaultStats wid]) ∧
    (stats.any (fun s => s.word_id == wid) = true →
      insertOrIgnoreStats stats wid = stats) := by
  have hany : (insertOrIgnoreStats stats wid).any (fun s => s.word_id == wid) = true := by
    unfold insertOrIgnoreStats
    by_cases h : stats.any (fun s => s.word_id == wid)
    · rwa [if_pos h]
    · rw [if_neg h]
      simp [defaultStats]
  refine ⟨?_, ?_, ?_⟩
  · rw [insertOrIgnoreStats, if_pos hany]
  · intro hfresh
    have hno : ¬stats.any (fun s => s.word_id == wid) = true := by
      rw [List.any_eq_true]
      rintro ⟨s, hs, hps⟩
      exact (List.filter_eq_nil_iff.mp hfresh s hs) hps
    rw [insertOrIgnoreStats, if_pos hany, insertOrIgnoreStats, if_neg hno,
      List.filter_append, hfresh]
    simp [defaultStats]
  · intro hsome
    rw [insertOrIgnoreStats, if_pos hsome]

/-- C9 witness: double-ensuring word 1 on an empty table leaves exactly the
all-zero record; ensuring again on a table holding it changes nothing. -/
theorem insertOrIgnoreStats_idempotent_witness :
    (([] : List WordStatsRow).filter (fun s => s.word_id == 1) = [] →
      (insertOrIgnoreStats (insertOrIgnoreStats [] 1) 1).filter
          (fun s => s.word_id == 1) = [defaultStats 1]) ∧
    ([defaultStats 1].any (fun s => s.word_id == 1) = true →
      insertOrIgnoreStats [defaultStats 1] 1 = [defaultStats 1]) :=
  ⟨(insertOrIgnoreStats_idempotent [] 1).2.1,
    (insertOrIgnoreStats_idempotent [defaultStats 1] 1).2.2⟩

/-- C10: every record reachable from the all-zero initial record by review
applications satisfies `score = 2*successCount + partialCount - 2*failCount`
with non-negative counters, and a single `applyReviewToStats` step preserves
the equation from any record satisfying it. -/
theorem reachableStats_invariant :
    (∀ r : WordStatsRow, ReachableStats r →
      r.score = 2 * r.success_count + r.partial_count - 2 * r.fail_count ∧
        0 ≤ r.success_count ∧ 0 ≤ r.partial_count ∧ 0 ≤ r.fail_count) ∧
    (∀ (r : WordStatsRow) (o : ReviewResult) (t : Timestamp),
      r.score = 2 * r.success_count + r.partial_count - 2 * r.fail_count →
      (applyReviewToStats r o t).score =
        2 * (applyReviewToStats r o t).success_count +
          (applyReviewToStats r o t).partial_count -
          2 * (applyReviewToStats r o t).fail_count) := by
  have hstep : ∀ (r : WordStatsRow) (o : ReviewResult) (t : Timestamp),
      r.score = 2 * r.success_count + r.partial_count - 2 * r.fail_count →
      (applyReviewToStats r o t).score =
        2 * (applyReviewToStats r o t).success_count +
          (applyReviewToStats r o t).partial_count -
          2 * (applyReviewToStats r o t).fail_count := by
    intro r o t h
    cases o <;> (simp [applyReviewToStats, computeScoreDelta]; omega)
  refine ⟨?_, hstep⟩
  intro r h
  induction h with
  | init wid => simp [defaultStats]
  | step r o t _ ih =>
    refine ⟨hstep r o t ih.1, ?_, ?_, ?_⟩ <;>
      (cases o <;> (simp [applyReviewToStats]; omega))

/-- C10 witness: the invariant holds of the initial record for word 1. -/
theorem reachableStats_invariant_witness :
    (defaultStats 1).score =
        2 * (defaultStats 1).success_count + (defaultStats 1).partial_count -
          2 * (defaultStats 1).fail_count ∧
      0 ≤ (defaultStats 1).success_count ∧ 0 ≤ (defaultStats 1).partial_count ∧
        0 ≤ (defaultStats 1).fail_count :=
  reachableStats_invariant.1 (defaultStats 1) (ReachableStats.init 1)

/-- For a positive `minAttempts`, the route's WHERE predicate agrees with
the spec's difficulty condition (the `NULLIF` zero-attempts guard is
subsumed by `attempts >= minAttempts >= 1`). -/
theorem isDifficult_iff (s : WordStatsRow) (scoreThreshold minAttempts : Int)
    (failRateThreshold : ℚ) (hmt : 1 ≤ minAttempts) :
    isDifficult s scoreThreshold minAttempts failRateThreshold = true ↔
      s.score ≤ scoreThreshold ∨
        (minAttempts ≤ attemptsOf s ∧
          failRateThreshold < (s.fail_count : ℚ) / (attemptsOf s : ℚ)) := by
  unfold isDifficult
  simp only [Bool.or_eq_true, Bool.and_eq_true, decide_eq_true_eq,
    Bool.not_eq_true', beq_eq_false_iff_ne]
  constructor
  · rintro (h | ⟨⟨h1, _⟩, h3⟩)
    · exact Or.inl h
    · exact Or.inr ⟨h1, h3⟩
  · rintro (h | ⟨h1, h2⟩)
    · exact Or.inl h
    · refine Or.inr ⟨⟨h1, ?_⟩, h2⟩
      omega

/-- C7: for a word of the acting scope and a positive `minAttempts`, the
difficulty query returns it exactly when `score <= scoreThreshold` OR
(`attempts >= minAttempts` AND `failCount/attempts > failRateThreshold`)
over its effective (left-joined) stats, and the returned list is sorted by
score ascending with ties broken by descending word id. -/
theorem difficultWords_spec (db : Db) (userId : Nat) (scoreThreshold minAttempts : Int)
    (failRateThreshold : ℚ) (w : WordRow) (hw : w ∈ db.words)
    (hu : w.user_id = some userId) (hmt : 1 ≤ minAttempts) :
    ((w, effectiveStats db w.id) ∈
        difficultWords db userId scoreThreshold minAttempts failRateThreshold ↔
      (effectiveStats db w.id).score ≤ scoreThreshold ∨
        (minAttempts ≤ attemptsOf (effectiveStats db w.id) ∧
          failRateThreshold <
            ((effectiveStats db w.id).fail_count : ℚ) /
              (attemptsOf (effectiveStats db w.id) : ℚ))) ∧
    List.Sorted difficultLE
      (difficultWords db userId scoreThreshold minAttempts failRateThreshold) := by
  constructor
  · rw [difficultWords, List.mem_insertionSort, List.mem_map]
    constructor
    · rintro ⟨w', hw', heq⟩
      have hww : w' = w := congrArg Prod.fst heq
      subst hww
      have hpred := (List.mem_filter.mp hw').2
      rw [Bool.and_eq_true] at hpred
      exact (isDifficult_iff _ _ _ _ hmt).mp hpred.2
    · intro hcond
      refine ⟨w, List.mem_filter.mpr ⟨hw, ?_⟩, rfl⟩
      rw [Bool.and_eq_true]
      exact ⟨by simp [hu], (isDifficult_iff _ _ _ _ hmt).mpr hcond⟩
  · exact List.sorted_insertionSort difficultLE _

/-- C7 witness: under the default parameters, word 1 (attempts 5,
fail rate 4/5 > 0.4, score −3 > −5) is classified difficult via the
fail-rate clause. -/
theorem difficultWords_spec_witness :
    (sampleWord, effectiveStats difficultSampleDb sampleWord.id) ∈
      difficultWords difficultSampleDb 7 (-5) 5 (2/5) :=
  ((difficultWords_spec difficultSampleDb 7 (-5) 5 (2/5) sampleWord
        (List.mem_singleton.mpr rfl) rfl (by norm_num)).1).mpr
    (Or.inr (by norm_num [effectiveStats, selectStats, difficultSampleDb,
      difficultSampleStats, sampleWord, attemptsOf, List.find?]))

/-- The schema-default effective stats are never classified difficult under
the default parameters. -/
theorem isDifficult_defaultStats (wid : Nat) :
    isDifficult (defaultStats wid) (-5) 5 (2/5) = false := by
  norm_num [isDifficult, defaultStats, attemptsOf]

/-- C8: a word with no stats row is evaluated by the difficulty query as
all-zero effective stats, and under the default parameters
(`scoreThreshold = -5`, `minAttempts = 5`, `failRateThreshold = 0.4`) it
never appears in the difficult set. -/
theorem difficultWords_no_stats (db : Db) (userId : Nat) (w : WordRow)
    (h : selectStats db.word_stats w.id = none) :
    effectiveStats db w.id = defaultStats w.id ∧
    ∀ s, (w, s) ∉ difficultWords db userId (-5) 5 (2/5) := by
  have heff : effectiveStats db w.id = defaultStats w.id := by
    rw [effectiveStats, h]
    rfl
  refine ⟨heff, ?_⟩
  intro s hs
  rw [difficultWords, List.mem_insertionSort, List.mem_map] at hs
  obtain ⟨w', hw', heq⟩ := hs
  have hww : w' = w := congrArg Prod.fst heq
  subst hww
  have hpred := (List.mem_filter.mp hw').2
  rw [Bool.and_eq_true] at hpred
  have := hpred.2
  rw [heff, isDifficult_defaultStats] at this
  exact Bool.false_ne_true this

/-- C8 witness: in a database where word 1 has no stats row, its effective
stats are the schema default and it is not returned as difficult. -/
theorem difficultWords_no_stats_witness :
    effectiveStats sampleDb sampleWord.id = defaultStats sampleWord.id ∧
    (sampleWord, defaultStats sampleWord.id) ∉ difficultWords sampleDb 7 (-5) 5 (2/5) :=
  ⟨(difficultWords_no_stats sampleDb 7 sampleWord rfl).1,
    (difficultWords_no_stats sampleDb 7 sampleWord rfl).2 (defaultStats sampleWord.id)⟩

/-- The record written by an owned bulk pair keeps the pair's key. -/
theorem bulkUpdated_word_id (db : Db) (rv : Nat × ReviewResult) (now : Timestamp) :
    (bulkUpdated db rv now).word_id = rv.1 := by
  rw [bulkUpdated, applyReviewToStats_word_id]
  exact selectStats_getD_word_id db.word_stats rv.1

/-- A bulk pair whose word the acting user does not own is a no-op. -/
theorem bulkReviewStep_not_owned (userId : Nat) (now : Timestamp) (n : Nat) (db : Db)
    (rv : Nat × ReviewResult) (h : wordOwnedBy db rv.1 userId = false) :
    bulkReviewStep userId now (n, db) rv = (n, db) := by
  unfold bulkReviewStep
  dsimp only
  rw [h]
  rfl

/-- An owned bulk pair increments the applied count and rewrites the word's
row to `bulkUpdated`. -/
theorem bulkReviewStep_owned (userId : Nat) (now : Timestamp) (n : Nat) (db : Db)
    (rv : Nat × ReviewResult) (h : wordOwnedBy db rv.1 userId = true) :
    bulkReviewStep userId now (n, db) rv =
      (n + 1,
        { db with
          word_stats := updateStats (insertOrIgnoreStats db.word_stats rv.1)
            (bulkUpdated db rv now) }) := by
  unfold bulkReviewStep
  dsimp only
  rw [h]
  simp only [if_true]
  rw [selectStats_insertOrIgnoreStats_self]
  rfl

/-- Bulk steps never touch the `words` table. -/
theorem bulkReviewStep_words (userId : Nat) (now : Timestamp) (acc : Nat × Db)
    (rv : Nat × ReviewResult) :
    (bulkReviewStep userId now acc rv).2.words = acc.2.words := by
  rcases acc with ⟨n, db⟩
  cases h : wordOwnedBy db rv.1 userId with
  | false => rw [bulkReviewStep_not_owned userId now n db rv h]
  | true => rw [bulkReviewStep_owned userId now n db rv h]

/-- Ownership only reads the `words` table. -/
theorem wordOwnedBy_eq_of_words (db1 db2 : Db) (h : db1.words = db2.words)
    (wid uid : Nat) : wordOwnedBy db1 wid uid = wordOwnedBy db2 wid uid := by
  unfold wordOwnedBy
  rw [h]

/-- `INSERT OR IGNORE` for a different key leaves that key's rows alone. -/
theorem filter_insertOrIgnoreStats_ne (stats : List WordStatsRow) (w wid : Nat)
    (h : w ≠ wid) :
    (insertOrIgnoreStats stats w).filter (fun s => s.word_id == wid) =
      stats.filter (fun s => s.word_id == wid) := by
  unfold insertOrIgnoreStats
  by_cases hany : stats.any (fun s => s.word_id == w)
  · rw [if_pos hany]
  · rw [if_neg hany, List.filter_append]
    have hw : ¬(w == wid) = true := by simpa using h
    simp [defaultStats, hw]

/-- An `UPDATE` keyed on a different `word_id` leaves that key's rows alone. -/
theorem filter_updateStats_ne (stats : List WordStatsRow) (u : WordStatsRow)
    (wid : Nat) (h : u.word_id ≠ wid) :
    (updateStats stats u).filter (fun s => s.word_id == wid) =
      stats.filter (fun s => s.word_id == wid) := by
  induction stats with
  | nil => rfl
  | cons s rest ih =>
    rw [updateStats]
    by_cases hs : (s.word_id == u.word_id) = true
    · have hsw : ¬(s.word_id == wid) = true := by
        rw [beq_iff_eq] at hs ⊢
        omega
      have huw : ¬(u.word_id == wid) = true := by simpa using h
      rw [if_pos hs]
      simpa [List.filter_cons, hsw, huw] using ih
    · rw [if_neg hs]
      by_cases hw : (s.word_id == wid) = true
      · simpa [List.filter_cons, hw] using ih
      · simpa [List.filter_cons, hw] using ih

/-- The bulk transaction never touches the `words` table. -/
theorem postBulkReviews_words (db : Db) (userId : Nat)
    (reviews : List (Nat × ReviewResult)) (now : Timestamp) :
    (postBulkReviews db userId reviews now).2.words = db.words := by
  suffices h : ∀ (rs : List (Nat × ReviewResult)) (acc : Nat × Db),
      (rs.foldl (bulkReviewStep userId now) acc).2.words = acc.2.words from
    h reviews (0, db)
  intro rs
  induction rs with
  | nil => intro acc; rfl
  | cons rv rest ih =>
    intro acc
    rw [List.foldl_cons, ih, bulkReviewStep_words]

/-- Fold invariant: the applied count grows by exactly the number of
owned pairs (ownership judged against the unchanging `words` table). -/
theorem bulk_count_aux (userId : Nat) (now : Timestamp) (db : Db) :
    ∀ (reviews : List (Nat × ReviewResult)) (n : Nat) (db0 : Db),
      db0.words = db.words →
      (reviews.foldl (bulkReviewStep userId now) (n, db0)).1 =
        n + (reviews.filter (fun rv => wordOwnedBy db rv.1 userId)).length := by
  intro reviews
  induction reviews with
  | nil =>
    intro n db0 _
    simp
  | cons rv rest ih =>
    intro n db0 hW
    rw [List.foldl_cons, List.filter_cons]
    have hown : wordOwnedBy db0 rv.1 userId = wordOwnedBy db rv.1 userId :=
      wordOwnedBy_eq_of_words db0 db hW rv.1 userId
    cases hcase : wordOwnedBy db rv.1 userId with
    | false =>
      rw [bulkReviewStep_not_owned userId now n db0 rv (hown.trans hcase),
        ih n db0 hW]
      simp [hcase]
    | true =>
      rw [bulkReviewStep_owned userId now n db0 rv (hown.trans hcase),
        ih (n + 1)
          { db0 with
            word_stats := updateStats (insertOrIgnoreStats db0.word_stats rv.1)
              (bulkUpdated db0 rv now) }
          hW]
      simp only [hcase, if_true, List.length_cons]
      omega

/-- Fold invariant: rows keyed by a word the acting user does not own are
never written. -/
theorem bulk_foreign_aux (userId : Nat) (now : Timestamp) (db : Db) (wid : Nat)
    (hfor : wordOwnedBy db wid userId = false) :
    ∀ (reviews : List (Nat × ReviewResult)) (n : Nat) (db0 : Db),
      db0.words = db.words →
      (reviews.foldl (bulkReviewStep userId now) (n, db0)).2.word_stats.filter
          (fun s => s.word_id == wid) =
        db0.word_stats.filter (fun s => s.word_id == wid) := by
  intro reviews
  induction reviews with
  | nil =>
    intro n db0 _
    rfl
  | cons rv rest ih =>
    intro n db0 hW
    rw [List.foldl_cons]
    have hown : wordOwnedBy db0 rv.1 userId = wordOwnedBy db rv.1 userId :=
      wordOwnedBy_eq_of_words db0 db hW rv.1 userId
    cases hcase : wordOwnedBy db rv.1 userId with
    | false =>
      rw [bulkReviewStep_not_owned userId now n db0 rv (hown.trans hcase)]
      exact ih n db0 hW
    | true =>
      have hne : rv.1 ≠ wid := by
        intro e
        rw [e, hfor] at hcase
        exact Bool.false_ne_true hcase
      rw [bulkReviewStep_owned userId now n db0 rv (hown.trans hcase),
        ih (n + 1)
          { db0 with
            word_stats := updateStats (insertOrIgnoreStats db0.word_stats rv.1)
              (bulkUpdated db0 rv now) }
          hW]
      dsimp only
      rw [filter_updateStats_ne _ _ _ (by rw [bulkUpdated_word_id]; exact hne),
        filter_insertOrIgnoreStats_ne _ _ _ hne]

/-- C5: in a bulk submission every pair whose word the acting user does not
own is skipped — such a word's stats rows are exactly what they were before
the call — and the returned `appliedCount` is the number of owned pairs. -/
theorem postBulkReviews_spec (db : Db) (userId : Nat)
    (reviews : List (Nat × ReviewResult)) (now : Timestamp) :
    (postBulkReviews db userId reviews now).1 =
      (reviews.filter (fun rv => wordOwnedBy db rv.1 userId)).length ∧
    ∀ wid, wordOwnedBy db wid userId = false →
      (postBulkReviews db userId reviews now).2.word_stats.filter
          (fun s => s.word_id == wid) =
        db.word_stats.filter (fun s => s.word_id == wid) := by
  constructor
  · simpa using bulk_count_aux userId now db reviews 0 db rfl
  · intro wid hfor
    exact bulk_foreign_aux userId now db wid hfor reviews 0 db rfl

/-- C5 witness: of the two pairs submitted by user 7, only word 1 is theirs;
`appliedCount` is 1 (= n − 1 for n = 2) and foreign word 2 keeps its (empty)
set of stats rows. -/
theorem postBulkReviews_spec_witness :
    (postBulkReviews bulkSampleDb 7
        [(1, ReviewResult.success), (2, ReviewResult.success)] 4).1 =
      ([(1, ReviewResult.success), (2, ReviewResult.success)].filter
        (fun rv => wordOwnedBy bulkSampleDb rv.1 7)).length ∧
    (postBulkReviews bulkSampleDb 7
        [(1, ReviewResult.success), (2, ReviewResult.success)] 4).2.word_stats.filter
        (fun s => s.word_id == 2) =
      bulkSampleDb.word_stats.filter (fun s => s.word_id == 2) :=
  ⟨(postBulkReviews_spec bulkSampleDb 7
      [(1, ReviewResult.success), (2, ReviewResult.success)] 4).1,
    (postBulkReviews_spec bulkSampleDb 7
      [(1, ReviewResult.success), (2, ReviewResult.success)] 4).2 2 (by decide)⟩

/-- Field view of `applyReviewToStats`: the success counter. -/
theorem bulkUpdated_success_count (db : Db) (rv : Nat × ReviewResult) (now : Timestamp) :
    (bulkUpdated db rv now).success_count =
      (effectiveStats db rv.1).success_count +
        (if rv.2 = ReviewResult.success then 1 else 0) := rfl

/-- Field view of `applyReviewToStats`: the partial counter. -/
theorem bulkUpdated_partial_count (db : Db) (rv : Nat × ReviewResult) (now : Timestamp) :
    (bulkUpdated db rv now).partial_count =
      (effectiveStats db rv.1).partial_count +
        (if rv.2 = ReviewResult.partial_ then 1 else 0) := rfl

/-- Field view of `applyReviewToStats`: the fail counter. -/
theorem bulkUpdated_fail_count (db : Db) (rv : Nat × ReviewResult) (now : Timestamp) :
    (bulkUpdated db rv now).fail_count =
      (effectiveStats db rv.1).fail_count +
        (if rv.2 = ReviewResult.fail then 1 else 0) := rfl

/-- Field view of `applyReviewToStats`: the score. -/
theorem bulkUpdated_score (db : Db) (rv : Nat × ReviewResult) (now : Timestamp) :
    (bulkUpdated db rv now).score =
      (effectiveStats db rv.1).score + computeScoreDelta rv.2 := rfl

/-- After an owned bulk pair, the pair's word reads back as `bulkUpdated`. -/
theorem effectiveStats_bulkStep_self (userId : Nat) (now : Timestamp) (n : Nat)
    (db : Db) (rv : Nat × ReviewResult) (h : wordOwnedBy db rv.1 userId = true) :
    effectiveStats (bulkReviewStep userId now (n, db) rv).2 rv.1 =
      bulkUpdated db rv now := by
  rw [bulkReviewStep_owned userId now n db rv h]
  unfold effectiveStats
  dsimp only
  rw [selectStats_updateStats_self' _ _ _ (bulkUpdated_word_id db rv now)
    (by rw [selectStats_insertOrIgnoreStats_self]; rfl)]
  rfl

/-- A bulk pair leaves every other word's effective stats unchanged. -/
theorem effectiveStats_bulkStep_ne (userId : Nat) (now : Timestamp) (n : Nat)
    (db : Db) (rv : Nat × ReviewResult) (wid : Nat) (hne : rv.1 ≠ wid) :
    effectiveStats (bulkReviewStep userId now (n, db) rv).2 wid =
      effectiveStats db wid := by
  cases h : wordOwnedBy db rv.1 userId with
  | false => rw [bulkReviewStep_not_owned userId now n db rv h]
  | true =>
    rw [bulkReviewStep_owned userId now n db rv h]
    unfold effectiveStats
    dsimp only
    rw [selectStats_updateStats_ne _ _ _ (by rw [bulkUpdated_word_id]; exact hne),
      selectStats_insertOrIgnoreStats_ne _ _ _ hne]

/-- Fold invariant for C6: a single owned word's effective counters grow by
its number of pairs of each outcome and its score by the sum of their
deltas. -/
theorem bulk_accumulate_aux (userId : Nat) (now : Timestamp) (db : Db) (wid : Nat)
    (h : wordOwnedBy db wid userId = true) :
    ∀ (reviews : List (Nat × ReviewResult)) (n : Nat) (db0 : Db),
      db0.words = db.words →
      (effectiveStats (reviews.foldl (bulkReviewStep userId now) (n, db0)).2
            wid).success_count =
          (effectiveStats db0 wid).success_count +
            ((reviews.filter
              (fun rv => rv.1 == wid && rv.2 == ReviewResult.success)).length : Int) ∧
      (effectiveStats (reviews.foldl (bulkReviewStep userId now) (n, db0)).2
            wid).partial_count =
          (effectiveStats db0 wid).partial_count +
            ((reviews.filter
              (fun rv => rv.1 == wid && rv.2 == ReviewResult.partial_)).length : Int) ∧
      (effectiveStats (reviews.foldl (bulkReviewStep userId now) (n, db0)).2
            wid).fail_count =
          (effectiveStats db0 wid).fail_count +
            ((reviews.filter
              (fun rv => rv.1 == wid && rv.2 == ReviewResult.fail)).length : Int) ∧
      (effectiveStats (reviews.foldl (bulkReviewStep userId now) (n, db0)).2
            wid).score =
          (effectiveStats db0 wid).score +
            ((reviews.filter (fun rv => rv.1 == wid)).map
              (fun rv => computeScoreDelta rv.2)).sum := by
  intro reviews
  induction reviews with
  | nil =>
    intro n db0 _
    simp
  | cons rv rest ih =>
    intro n db0 hW
    rw [List.foldl_cons]
    by_cases hrv : rv.1 = wid
    · subst hrv
      have hown0 : wordOwnedBy db0 rv.1 userId = true := by
        rw [wordOwnedBy_eq_of_words db0 db hW rv.1 userId]
        exact h
      rw [bulkReviewStep_owned userId now n db0 rv hown0]
      obtain ⟨ihs, ihp, ihf, ihsc⟩ := ih (n + 1)
        { db0 with
          word_stats := updateStats (insertOrIgnoreStats db0.word_stats rv.1)
            (bulkUpdated db0 rv now) }
        hW
      have heq := effectiveStats_bulkStep_self userId now n db0 rv hown0
      rw [bulkReviewStep_owned userId now n db0 rv hown0] at heq
      refine ⟨?_, ?_, ?_, ?_⟩
      · rw [ihs, heq, bulkUpdated_success_count, List.filter_cons]
        cases rv.2 <;> (simp; try ring)
      · rw [ihp, heq, bulkUpdated_partial_count, List.filter_cons]
        cases rv.2 <;> (simp; try ring)
      · rw [ihf, heq, bulkUpdated_fail_count, List.filter_cons]
        cases rv.2 <;> (simp; try ring)
      · rw [ihsc, heq, bulkUpdated_score, List.filter_cons]
        simp
        ring
    · have heq := effectiveStats_bulkStep_ne userId now n db0 rv wid hrv
      rcases hstep : bulkReviewStep userId now (n, db0) rv with ⟨m, db1⟩
      rw [hstep] at heq
      have hW1 : db1.words = db.words := by
        have hw := bulkReviewStep_words userId now (n, db0) rv
        rw [hstep] at hw
        dsimp only at hw
        rw [hw]
        exact hW
      obtain ⟨ihs, ihp, ihf, ihsc⟩ := ih m db1 hW1
      have hwid : (rv.1 == wid) = false := by simpa using hrv
      refine ⟨?_, ?_, ?_, ?_⟩
      · rw [ihs, heq, List.filter_cons]
        simp [hwid]
      · rw [ihp, heq, List.filter_cons]
        simp [hwid]
      · rw [ihf, heq, List.filter_cons]
        simp [hwid]
      · rw [ihsc, heq, List.filter_cons]
        simp [hwid]

/-- C6: in a bulk submission, duplicates accumulate — for every word the
acting user owns, its final effective counters increase by the number of
its pairs of each outcome and its final score by the sum of their deltas,
independent of the other pairs in the list. -/
theorem postBulkReviews_accumulate (db : Db) (userId : Nat)
    (reviews : List (Nat × ReviewResult)) (now : Timestamp) (wid : Nat)
    (h : wordOwnedBy db wid userId = true) :
    (effectiveStats (postBulkReviews db userId reviews now).2 wid).success_count =
        (effectiveStats db wid).success_count +
          ((reviews.filter
            (fun rv => rv.1 == wid && rv.2 == ReviewResult.success)).length : Int) ∧
    (effectiveStats (postBulkReviews db userId reviews now).2 wid).partial_count =
        (effectiveStats db wid).partial_count +
          ((reviews.filter
            (fun rv => rv.1 == wid && rv.2 == ReviewResult.partial_)).length : Int) ∧
    (effectiveStats (postBulkReviews db userId reviews now).2 wid).fail_count =
        (effectiveStats db wid).fail_count +
          ((reviews.filter
            (fun rv => rv.1 == wid && rv.2 == ReviewResult.fail)).length : Int) ∧
    (effectiveStats (postBulkReviews db userId reviews now).2 wid).score =
        (effectiveStats db wid).score +
          ((reviews.filter (fun rv => rv.1 == wid)).map
            (fun rv => computeScoreDelta rv.2)).sum :=
  bulk_accumulate_aux userId now db wid h reviews 0 db rfl

/-- C6 witness: two success pairs for word 1 in one bulk call leave its
success counter at 2 and its score at 4. -/
theorem postBulkReviews_accumulate_witness :
    (effectiveStats (postBulkReviews bulkSampleDb 7
        [(1, ReviewResult.success), (1, ReviewResult.success)] 4).2 1).success_count = 2 ∧
    (effectiveStats (postBulkReviews bulkSampleDb 7
        [(1, ReviewResult.success), (1, ReviewResult.success)] 4).2 1).score = 4 := by
  have hacc := postBulkReviews_accumulate bulkSampleDb 7
    [(1, ReviewResult.success), (1, ReviewResult.success)] 4 1 (by decide)
  refine ⟨?_, ?_⟩
  · rw [hacc.1]
    decide
  · rw [hacc.2.2.2]
    decide

end Kotoba
